import Mathlib

/-!
Shallow embedding of `src/components/omega/perf/frontier/frontier_utils.py`.

Strings are modelled at the character level (`List Char`); Python runtime
exceptions are modelled with `Except PyErr`.  Python's `str.upper` and
`str.split()` are modelled at ASCII level (the repository only ever feeds
ASCII markers and command lines to them).
-/

/-- Python runtime errors that this module can raise. -/
inductive PyErr where
  | indexError
  | valueError (msg : String)
  | typeError (msg : String)
deriving DecidableEq

deriving instance DecidableEq for Except

namespace frontier_utils

/-- ASCII model of Python's whitespace test used by `str.split()`. -/
def pyIsSpace (c : Char) : Bool :=
  c == ' ' || c == '\t' || c == '\n' || c == '\x0b' || c == '\x0c' || c == '\r'

/-- The lowercase-to-uppercase letter table behind `pyUpperChar`. -/
def upperTable : List (Char × Char) :=
  [('a','A'), ('b','B'), ('c','C'), ('d','D'), ('e','E'), ('f','F'), ('g','G'),
   ('h','H'), ('i','I'), ('j','J'), ('k','K'), ('l','L'), ('m','M'), ('n','N'),
   ('o','O'), ('p','P'), ('q','Q'), ('r','R'), ('s','S'), ('t','T'), ('u','U'),
   ('v','V'), ('w','W'), ('x','X'), ('y','Y'), ('z','Z')]

/-- ASCII model of Python's per-character `str.upper`: lowercase letters map
to their uppercase counterpart, every other character is unchanged. -/
def pyUpperChar (c : Char) : Char := (upperTable.lookup c).getD c

/-- `afterFirst l sub` models Python's
`l[l.find(sub) + len(sub):]` guarded by `l.find(sub) >= 0`:
`none` when `sub` does not occur in `l`, otherwise everything after the
first occurrence of `sub`. -/
def afterFirst : List Char → List Char → Option (List Char)
  | [], sub => if sub.isEmpty then some [] else none
  | c :: rest, sub =>
    if sub.isPrefixOf (c :: rest) then some ((c :: rest).drop sub.length)
    else afterFirst rest sub

/-- Accumulator worker for `pySplitWs`. -/
def pySplitWsAux : List Char → List Char → List (List Char)
  | [], acc => if acc.isEmpty then [] else [acc.reverse]
  | c :: rest, acc =>
    if pyIsSpace c then
      if acc.isEmpty then pySplitWsAux rest []
      else acc.reverse :: pySplitWsAux rest []
    else pySplitWsAux rest (c :: acc)

/-- Model of Python's argumentless `str.split()`: split on runs of
whitespace, discarding empty fields. -/
def pySplitWs (l : List Char) : List (List Char) :=
  pySplitWsAux l []

/-- Model of Python's `";".join(...)` at character level: the pieces
concatenated with a single `';'` between consecutive pieces. -/
def joinSemi : List (List Char) → List Char
  | [] => []
  | [w] => w
  | w :: ws => w ++ ';' :: joinSemi ws

/-- Model of `ctest_output.split("_NEWLINE_")`: split on every
(non-overlapping, leftmost-first) occurrence of the nine-character
sentinel `"_NEWLINE_"`, keeping empty fields. -/
def splitNewline : List Char → List (List Char)
  | '_' :: 'N' :: 'E' :: 'W' :: 'L' :: 'I' :: 'N' :: 'E' :: '_' :: rest =>
      [] :: splitNewline rest
  | c :: rest =>
      match splitNewline rest with
      | [] => [[c]]
      | w :: ws => (c :: w) :: ws
  | [] => [[]]

/-- The marker `": Test command: "` from `get_ctests`. -/
def cmdMarker : List Char := ": Test command: ".data

/-- The marker `": Working Directory:"` from `get_ctests`. -/
def dirMarker : List Char := ": Working Directory:".data

/-- The marker `"Test"` from `get_ctests`. -/
def testMarker : List Char := "Test".data

/-- The scanning loop of `get_ctests`, acting on the list of lines still
ahead of the cursor (the cursor only ever moves forward, so the consumed
lines need not be kept).  Mirrors the Python `while` loop line by line:
`none` from a marker search is Python's `find(...) < 0` branch
(`continue`), `.error .indexError` is a raised `IndexError` — either from
`Cmd.split()[-1]` on an empty split or from `lines[index]` past the end.
On success a record `f"{Cmd},{Exe},{Dir},{Test}"` is collected. -/
def scanCtests : List (List Char) → Except PyErr (List (List Char))
  | [] => .ok []
  | line :: rest =>
    match afterFirst line cmdMarker with
    | none => scanCtests rest
    | some cmd =>
      match (pySplitWs cmd).getLast? with
      | none => .error .indexError
      | some exe =>
        match rest with
        | [] => .error .indexError
        | line2 :: rest2 =>
          match afterFirst line2 dirMarker with
          | none => scanCtests rest2
          | some dir =>
            match rest2 with
            | [] => .error .indexError
            | line3 :: rest3 =>
              match afterFirst line3 testMarker with
              | none => scanCtests rest3
              | some _ =>
                match (pySplitWs line3).getLast? with
                | none => .error .indexError
                | some test =>
                  (scanCtests rest3).map
                    (fun recs => (cmd ++ ',' :: exe ++ ',' :: dir ++ ',' :: test) :: recs)

/-- `get_ctests` from the source: split the input on `"_NEWLINE_"`, run the
scanning loop, join the collected records with `";"`. -/
def get_ctests (ctest_output : String) : Except PyErr String :=
  (scanCtests (splitNewline ctest_output.data)).map (fun recs => String.mk (joinSemi recs))

/-- `reverse_words` from the source: split on whitespace, reverse the word
order (`words[::-1]`), join with `";"`. -/
def reverse_words (input_str : String) : String :=
  String.mk (joinSemi (pySplitWs input_str.data).reverse)

/-- `to_upper` from the source: split on whitespace, uppercase every word,
join with `";"`. -/
def to_upper (input_str : String) : String :=
  String.mk (joinSemi ((pySplitWs input_str.data).map (fun w => w.map pyUpperChar)))

/-- The vowel string `"aeiouAEIOU"` from `remove_vowels`. -/
def vowels : List Char := "aeiouAEIOU".data

/-- `remove_vowels` from the source: keep every character not in `vowels`
(each kept character is a one-character piece) and join the pieces
with `";"`. -/
def remove_vowels (input_str : String) : String :=
  String.mk (joinSemi ((input_str.data.filter (fun c => !(vowels.contains c))).map (fun c => [c])))

/-- A value bound in the module's global namespace, as far as `main` can
observe it: one of the four one-string-argument functions, the
zero-argument function `main` itself (callable, but raises `TypeError`
when handed the one argument `main` passes), or a binding that is not
callable (the imported modules `sys` and `re` and the interpreter-supplied
dunder bindings). -/
inductive PyGlobal where
  | strFun (f : String → Except PyErr String)
  | mainFunc
  | notCallable

/-- Python's `callable(...)` on the values of `moduleGlobals`. -/
def pyCallable : PyGlobal → Bool
  | .strFun _ => true
  | .mainFunc => true
  | .notCallable => false

/-- The module's `globals()` dictionary at the time `main` runs: the
interpreter-supplied dunder bindings, the two imported modules, the four
string functions, and `main` itself. -/
def moduleGlobals : List (String × PyGlobal) :=
  [("__name__", .notCallable), ("__doc__", .notCallable),
   ("__package__", .notCallable), ("__loader__", .notCallable),
   ("__spec__", .notCallable), ("__annotations__", .notCallable),
   ("__builtins__", .notCallable), ("__file__", .notCallable),
   ("sys", .notCallable), ("re", .notCallable),
   ("get_ctests", .strFun get_ctests),
   ("reverse_words", .strFun (fun s => .ok (reverse_words s))),
   ("to_upper", .strFun (fun s => .ok (to_upper s))),
   ("remove_vowels", .strFun (fun s => .ok (remove_vowels s))),
   ("main", .mainFunc)]

/-- What a run of `main` produces when no exception reaches the top:
the lines printed to stdout and the value `main` returned (`some ""`
from the early exit, `none` — Python's implicit `None` — otherwise). -/
structure MainResult where
  printed : List String
  returned : Option String
deriving DecidableEq

/-- `main` from the source.  `argv` is `sys.argv`.  With fewer than three
arguments it returns `""` having printed nothing.  Otherwise it looks the
second argument up in `globals()`: a missing key raises
`ValueError("No function named \x27...\x27 found.")` (the `except KeyError`
re-raise), a non-callable value raises `ValueError("... is not callable")`
(not caught: the `except` clause only catches `KeyError`), and a callable
value is applied to the space-joined remaining arguments — `main` itself
then raises `TypeError`, since it accepts no argument, and any exception
of the called function propagates.  The result of a successful call is
printed. -/
def main (argv : List String) : Except PyErr MainResult :=
  if argv.length < 3 then .ok ⟨[], some ""⟩
  else
    match moduleGlobals.lookup (argv.getD 1 "") with
    | none =>
      .error (.valueError ("No function named \x27" ++ argv.getD 1 "" ++ "\x27 found."))
    | some g =>
      if !(pyCallable g) then .error (.valueError (argv.getD 1 "" ++ " is not callable"))
      else
        match g with
        | .strFun f =>
          match f (String.intercalate " " (argv.drop 2)) with
          | .error e => .error e
          | .ok result => .ok ⟨[result], none⟩
        | .mainFunc =>
          .error (.typeError "main() takes 0 positional arguments but 1 was given")
        | .notCallable => .error (.valueError (argv.getD 1 "" ++ " is not callable"))

/-- Does a `main` outcome consist of failing with the spec's
`UnknownFunction` error (a `ValueError` in the source)? -/
def isUnknownFunctionErr : Except PyErr MainResult → Bool
  | .error (.valueError _) => true
  | _ => false

/-- `true` when looking `name` up in `moduleGlobals` either misses or
yields a non-callable value — the two situations the source turns into a
`ValueError`. -/
def lookupNotCallable (name : String) : Bool :=
  match moduleGlobals.lookup name with
  | none => true
  | some g => !(pyCallable g)

/-! ### Specification-side predicates -/

/-- A sufficient input condition for the scan not to raise: every line
that contains the command marker both carries at least one
whitespace-separated token after the marker and is followed by at least
two further lines. -/
def safeLinesB : List (List Char) → Bool
  | [] => true
  | line :: rest =>
    (match afterFirst line cmdMarker with
     | none => true
     | some cmd => !(pySplitWs cmd).isEmpty && decide (2 ≤ rest.length))
    && safeLinesB rest

/-- `groupRec l1 l2 l3 r`: the three consecutive lines `l1`, `l2`, `l3`
are recognized as a command line, a directory line and a test-name line,
and `r` is exactly the record the parser builds from them. -/
def groupRec (l1 l2 l3 r : List Char) : Prop :=
  ∃ cmd exe dir test,
    afterFirst l1 cmdMarker = some cmd ∧
    (pySplitWs cmd).getLast? = some exe ∧
    afterFirst l2 dirMarker = some dir ∧
    (afterFirst l3 testMarker).isSome = true ∧
    (pySplitWs l3).getLast? = some test ∧
    r = cmd ++ ',' :: exe ++ ',' :: dir ++ ',' :: test

/-- `witnessedFrom ls rs`: every record of `rs`, in order, comes from a
group of three consecutive recognized lines of `ls`, with the group of
each later record lying strictly after the group of each earlier one. -/
def witnessedFrom : List (List Char) → List (List Char) → Prop
  | _, [] => True
  | ls, r :: rs => ∃ pre l1 l2 l3 post,
      ls = pre ++ l1 :: l2 :: l3 :: post ∧ groupRec l1 l2 l3 r ∧ witnessedFrom post rs

/-! ### Helper lemmas about the string primitives -/

/-- `List.lookup` only returns pairs present in the association list. -/
theorem lookup_mem {α β} [BEq α] [LawfulBEq α] {l : List (α × β)} {a : α} {b : β}
    (h : l.lookup a = some b) : (a, b) ∈ l := by
  induction l with
  | nil => simp [List.lookup] at h
  | cons p t ih =>
    rw [List.lookup] at h
    split at h
    · next heq =>
      cases h
      have ha : a = p.1 := eq_of_beq heq
      have hp : (a, p.2) = p := by rw [ha]
      rw [hp]
      exact List.mem_cons_self _ _
    · right; exact ih h

/-- Uppercasing a character twice is the same as uppercasing it once. -/
theorem pyUpperChar_idem (c : Char) : pyUpperChar (pyUpperChar c) = pyUpperChar c := by
  cases h : upperTable.lookup c with
  | none => simp [pyUpperChar, h]
  | some u =>
    have hm : (c, u) ∈ upperTable := lookup_mem h
    have hu : ∀ p ∈ upperTable, upperTable.lookup p.2 = none := by decide
    simp [pyUpperChar, h, hu _ hm]

/-- Uppercasing does not create or destroy whitespace. -/
theorem pyIsSpace_pyUpperChar (c : Char) : pyIsSpace (pyUpperChar c) = pyIsSpace c := by
  cases h : upperTable.lookup c with
  | none => simp [pyUpperChar, h]
  | some u =>
    have hm : (c, u) ∈ upperTable := lookup_mem h
    have hv : ∀ p ∈ upperTable, pyIsSpace p.1 = false ∧ pyIsSpace p.2 = false := by decide
    simp [pyUpperChar, h, (hv _ hm).1, (hv _ hm).2]

/-- A list is a `isPrefixOf`-prefix of itself followed by anything. -/
theorem isPrefixOf_append_self (l t : List Char) : l.isPrefixOf (l ++ t) = true :=
  List.isPrefixOf_iff_prefix.mpr (List.prefix_append l t)

/-- Searching for a non-empty `sub` in `sub ++ t` finds it at the start. -/
theorem afterFirst_append_self (sub t : List Char) (h : sub ≠ []) :
    afterFirst (sub ++ t) sub = some t := by
  cases sub with
  | nil => exact absurd rfl h
  | cons s st =>
    show afterFirst (s :: (st ++ t)) (s :: st) = some t
    rw [afterFirst]
    have hp : (s :: st).isPrefixOf (s :: (st ++ t)) = true := isPrefixOf_append_self (s :: st) t
    simp only [hp, if_true, List.cons_append]
    rw [show s :: (st ++ t) = (s :: st) ++ t from rfl, List.drop_left]

/-- A successful `afterFirst` search decomposes the searched list. -/
theorem afterFirst_decomp : ∀ (l sub t : List Char), afterFirst l sub = some t →
    ∃ pre, l = pre ++ (sub ++ t) := by
  intro l
  induction l with
  | nil =>
    intro sub t h
    rw [afterFirst] at h
    split at h
    · next he =>
      cases h
      refine ⟨[], ?_⟩
      rw [List.isEmpty_iff.mp he]
      rfl
    · exact absurd h (by simp)
  | cons c rest ih =>
    intro sub t h
    rw [afterFirst] at h
    split at h
    · next hp =>
      cases h
      obtain ⟨u, hu⟩ : sub <+: (c :: rest) := List.isPrefixOf_iff_prefix.mp hp
      refine ⟨[], ?_⟩
      have ht : (c :: rest).drop sub.length = u := by rw [← hu, List.drop_left]
      rw [List.nil_append, ht, hu]
    · next hp =>
      obtain ⟨pre, hpre⟩ := ih sub t h
      exact ⟨c :: pre, by rw [hpre]; rfl⟩

/-- Characters of the pattern found by `afterFirst` occur in the searched list. -/
theorem mem_of_afterFirst {l sub t : List Char} (h : afterFirst l sub = some t)
    {c : Char} (hc : c ∈ sub) : c ∈ l := by
  obtain ⟨pre, hpre⟩ := afterFirst_decomp l sub t h
  rw [hpre]
  simp [hc]

/-- On whitespace-free input the split worker returns a single word. -/
theorem pySplitWsAux_nonspace : ∀ (l acc : List Char), (∀ c ∈ l, pyIsSpace c = false) →
    pySplitWsAux l acc = if acc.isEmpty && l.isEmpty then [] else [acc.reverse ++ l] := by
  intro l
  induction l with
  | nil =>
    intro acc h
    rw [pySplitWsAux]
    cases acc <;> simp
  | cons c rest ih =>
    intro acc h
    have hc : pyIsSpace c = false := h c (List.mem_cons_self c rest)
    rw [pySplitWsAux, hc]
    simp only [Bool.false_eq_true, if_false]
    rw [ih (c :: acc) (fun d hd => h d (List.mem_cons_of_mem c hd))]
    simp [List.append_assoc]

/-- A non-empty whitespace-free list splits into exactly itself. -/
theorem pySplitWs_nonspace (l : List Char) (h0 : l ≠ [])
    (h : ∀ c ∈ l, pyIsSpace c = false) : pySplitWs l = [l] := by
  rw [pySplitWs, pySplitWsAux_nonspace l [] h]
  simp [h0]

/-- Every word produced by the split worker (from a whitespace-free
accumulator) is non-empty and whitespace-free. -/
theorem pySplitWsAux_mem : ∀ (l acc : List Char) (w : List Char),
    (∀ c ∈ acc, pyIsSpace c = false) → w ∈ pySplitWsAux l acc →
    w ≠ [] ∧ ∀ c ∈ w, pyIsSpace c = false := by
  intro l
  induction l with
  | nil =>
    intro acc w hacc hw
    rw [pySplitWsAux] at hw
    split at hw
    · simp at hw
    · next hne =>
      rw [List.mem_singleton] at hw
      subst hw
      refine ⟨?_, ?_⟩
      · simp only [ne_eq, List.reverse_eq_nil_iff]
        exact fun h => hne (by simp [h])
      · intro c hc
        exact hacc c (List.mem_reverse.mp hc)
  | cons c rest ih =>
    intro acc w hacc hw
    rw [pySplitWsAux] at hw
    split at hw
    · split at hw
      · exact ih [] w (by simp) hw
      · next hne =>
        rcases List.mem_cons.mp hw with rfl | hw2
        · refine ⟨?_, ?_⟩
          · simp only [ne_eq, List.reverse_eq_nil_iff]
            exact fun h => hne (by simp [h])
          · intro d hd
            exact hacc d (List.mem_reverse.mp hd)
        · exact ih [] w (by simp) hw2
    · next hcs =>
      refine ih (c :: acc) w ?_ hw
      intro d hd
      rcases List.mem_cons.mp hd with rfl | hd2
      · exact Bool.not_eq_true _ ▸ Bool.of_not_eq_true hcs
      · exact hacc d hd2

/-- If the split worker produces nothing, everything it saw was whitespace. -/
theorem pySplitWsAux_eq_nil : ∀ (l acc : List Char), pySplitWsAux l acc = [] →
    acc = [] ∧ ∀ c ∈ l, pyIsSpace c = true := by
  intro l
  induction l with
  | nil =>
    intro acc h
    rw [pySplitWsAux] at h
    split at h
    · next he => exact ⟨List.isEmpty_iff.mp he, by simp⟩
    · exact absurd h (by simp)
  | cons c rest ih =>
    intro acc h
    rw [pySplitWsAux] at h
    split at h
    · next hcs =>
      split at h
      · next he =>
        obtain ⟨-, hall⟩ := ih [] h
        refine ⟨List.isEmpty_iff.mp he, ?_⟩
        intro d hd
        rcases List.mem_cons.mp hd with rfl | hd2
        · exact hcs
        · exact hall d hd2
      · exact absurd h (by simp)
    · obtain ⟨habs, -⟩ := ih (c :: acc) h
      exact absurd habs (by simp)

/-- A list containing a non-whitespace character splits into at least one word. -/
theorem pySplitWs_ne_nil {l : List Char} {c : Char} (hc : c ∈ l)
    (hs : pyIsSpace c = false) : pySplitWs l ≠ [] := by
  intro h
  obtain ⟨-, hall⟩ := pySplitWsAux_eq_nil l [] h
  rw [hall c hc] at hs
  exact Bool.true_eq_false ▸ hs ▸ rfl

/-- Joining a non-empty list of non-empty pieces is non-empty. -/
theorem joinSemi_ne_nil : ∀ (ws : List (List Char)), ws ≠ [] →
    (∀ w ∈ ws, w ≠ []) → joinSemi ws ≠ [] := by
  intro ws hne hws
  match ws with
  | [w] =>
    rw [joinSemi]
    exact hws w (List.mem_singleton_self w)
  | w :: w2 :: ws2 =>
    show w ++ ';' :: joinSemi (w2 :: ws2) ≠ []
    simp

/-- Every character of a `";"`-join is a `';'` or comes from some piece. -/
theorem mem_joinSemi : ∀ (ws : List (List Char)) (c : Char), c ∈ joinSemi ws →
    c = ';' ∨ ∃ w ∈ ws, c ∈ w := by
  intro ws
  induction ws with
  | nil => simp [joinSemi]
  | cons w ws2 ih =>
    cases ws2 with
    | nil =>
      intro c hc
      rw [joinSemi] at hc
      exact Or.inr ⟨w, List.mem_singleton_self w, hc⟩
    | cons w2 ws3 =>
      intro c hc
      have hc2 : c ∈ w ++ ';' :: joinSemi (w2 :: ws3) := hc
      rcases List.mem_append.mp hc2 with hcw | hctail
      · exact Or.inr ⟨w, List.mem_cons_self _ _, hcw⟩
      · rcases List.mem_cons.mp hctail with rfl | hcj
        · exact Or.inl rfl
        · rcases ih c hcj with h1 | ⟨w3, hw3, hcw3⟩
          · exact Or.inl h1
          · exact Or.inr ⟨w3, List.mem_cons_of_mem w hw3, hcw3⟩

/-- Mapping a function that fixes every character of a list fixes the list. -/
theorem map_fixed {f : Char → Char} : ∀ (l : List Char), (∀ c ∈ l, f c = c) →
    l.map f = l := by
  intro l
  induction l with
  | nil => intro h; rfl
  | cons c t ih =>
    intro h
    rw [List.map_cons, h c (List.mem_cons_self c t),
      ih (fun d hd => h d (List.mem_cons_of_mem c hd))]

/-! ### One-step equations of the scanning loop -/

/-- A line without the command marker is skipped. -/
theorem scanCtests_skip {line : List Char} (rest : List (List Char))
    (h : afterFirst line cmdMarker = none) :
    scanCtests (line :: rest) = scanCtests rest := by
  simp only [scanCtests, h]

/-- A command line whose command text has no token raises `IndexError`. -/
theorem scanCtests_err_exe {line : List Char} (rest : List (List Char))
    {cmd : List Char} (h1 : afterFirst line cmdMarker = some cmd)
    (h2 : (pySplitWs cmd).getLast? = none) :
    scanCtests (line :: rest) = .error .indexError := by
  simp only [scanCtests, h1, h2]

/-- A command line that ends the input raises `IndexError`. -/
theorem scanCtests_err_end1 {line : List Char} {cmd exe : List Char}
    (h1 : afterFirst line cmdMarker = some cmd)
    (h2 : (pySplitWs cmd).getLast? = some exe) :
    scanCtests [line] = .error .indexError := by
  simp only [scanCtests, h1, h2]

/-- When the line after a command line lacks the directory marker, the
scan resumes directly after that line — at the would-be test-name line —
with no record emitted. -/
theorem scanCtests_skip2 {line l2 : List Char} (rest : List (List Char))
    {cmd exe : List Char} (h1 : afterFirst line cmdMarker = some cmd)
    (h2 : (pySplitWs cmd).getLast? = some exe)
    (h3 : afterFirst l2 dirMarker = none) :
    scanCtests (line :: l2 :: rest) = scanCtests rest := by
  simp only [scanCtests, h1, h2, h3]

/-- A recognized command/directory pair that ends the input raises
`IndexError`. -/
theorem scanCtests_err_end2 {line l2 : List Char} {cmd exe dir : List Char}
    (h1 : afterFirst line cmdMarker = some cmd)
    (h2 : (pySplitWs cmd).getLast? = some exe)
    (h3 : afterFirst l2 dirMarker = some dir) :
    scanCtests [line, l2] = .error .indexError := by
  simp only [scanCtests, h1, h2, h3]

/-- When the third line of a group lacks `"Test"`, the scan resumes after
it with no record emitted. -/
theorem scanCtests_skip3 {line l2 l3 : List Char} (rest : List (List Char))
    {cmd exe dir : List Char} (h1 : afterFirst line cmdMarker = some cmd)
    (h2 : (pySplitWs cmd).getLast? = some exe)
    (h3 : afterFirst l2 dirMarker = some dir)
    (h4 : afterFirst l3 testMarker = none) :
    scanCtests (line :: l2 :: l3 :: rest) = scanCtests rest := by
  simp only [scanCtests, h1, h2, h3, h4]

/-- A fully recognized three-line group emits exactly one record in front
of whatever the rest of the scan produces. -/
theorem scanCtests_emit {line l2 l3 : List Char} (rest : List (List Char))
    {cmd exe dir tt test : List Char}
    (h1 : afterFirst line cmdMarker = some cmd)
    (h2 : (pySplitWs cmd).getLast? = some exe)
    (h3 : afterFirst l2 dirMarker = some dir)
    (h4 : afterFirst l3 testMarker = some tt)
    (h5 : (pySplitWs l3).getLast? = some test) :
    scanCtests (line :: l2 :: l3 :: rest) =
      (scanCtests rest).map
        (fun recs => (cmd ++ ',' :: exe ++ ',' :: dir ++ ',' :: test) :: recs) := by
  simp only [scanCtests, h1, h2, h3, h4, h5]

/-- A recognized test-name line whose whitespace split is empty would
raise `IndexError` (unreachable in practice: such a line contains
`"Test"`). -/
theorem scanCtests_err_test {line l2 l3 : List Char} (rest : List (List Char))
    {cmd exe dir tt : List Char}
    (h1 : afterFirst line cmdMarker = some cmd)
    (h2 : (pySplitWs cmd).getLast? = some exe)
    (h3 : afterFirst l2 dirMarker = some dir)
    (h4 : afterFirst l3 testMarker = some tt)
    (h5 : (pySplitWs l3).getLast? = none) :
    scanCtests (line :: l2 :: l3 :: rest) = .error .indexError := by
  simp only [scanCtests, h1, h2, h3, h4, h5]

/-- A non-empty list has a `getLast?`. -/
theorem getLast?_ne_none {α} (l : List α) (h : l ≠ []) : ∃ x, l.getLast? = some x := by
  cases l with
  | nil => exact absurd rfl h
  | cons a t => exact ⟨(a :: t).getLast (by simp), List.getLast?_eq_getLast _ _⟩

/-- Unpacking `safeLinesB` at a cons cell. -/
theorem safeLinesB_cons {line : List Char} {rest : List (List Char)}
    (h : safeLinesB (line :: rest) = true) :
    (∀ cmd, afterFirst line cmdMarker = some cmd →
      pySplitWs cmd ≠ [] ∧ 2 ≤ rest.length) ∧ safeLinesB rest = true := by
  rw [safeLinesB, Bool.and_eq_true] at h
  refine ⟨?_, h.2⟩
  intro cmd hcmd
  have h1 := h.1
  simp only [hcmd] at h1
  rw [Bool.and_eq_true] at h1
  refine ⟨?_, of_decide_eq_true h1.2⟩
  intro hnil
  rw [hnil] at h1
  simp at h1

/-! ### Global properties of the scanning loop -/

/-- Under `safeLinesB` the scanning loop returns normally. -/
theorem scanCtests_ok_of_safe : ∀ (ls : List (List Char)), safeLinesB ls = true →
    ∃ recs, scanCtests ls = .ok recs := by
  intro ls
  induction ls using scanCtests.induct with
  | case1 => exact fun _ => ⟨[], rfl⟩
  | case2 line rest hc ih =>
    intro h
    obtain ⟨recs, hr⟩ := ih (safeLinesB_cons h).2
    exact ⟨recs, by rw [scanCtests_skip rest hc]; exact hr⟩
  | case3 line rest cmd hc hexe =>
    intro h
    exfalso
    obtain ⟨hne, -⟩ := (safeLinesB_cons h).1 cmd hc
    obtain ⟨x, hx⟩ := getLast?_ne_none _ hne
    rw [hx] at hexe
    exact absurd hexe (by simp)
  | case4 line cmd hc exe hexe =>
    intro h
    exfalso
    obtain ⟨-, hlen⟩ := (safeLinesB_cons h).1 cmd hc
    simp at hlen
  | case5 line cmd hc exe hexe l2 rest2 hdir ih =>
    intro h
    obtain ⟨recs, hr⟩ := ih (safeLinesB_cons (safeLinesB_cons h).2).2
    exact ⟨recs, by rw [scanCtests_skip2 rest2 hc hexe hdir]; exact hr⟩
  | case6 line cmd hc exe hexe l2 dir hdir =>
    intro h
    exfalso
    obtain ⟨-, hlen⟩ := (safeLinesB_cons h).1 cmd hc
    simp at hlen
  | case7 line cmd hc exe hexe l2 dir hdir l3 rest3 htest ih =>
    intro h
    obtain ⟨recs, hr⟩ :=
      ih (safeLinesB_cons (safeLinesB_cons (safeLinesB_cons h).2).2).2
    exact ⟨recs, by rw [scanCtests_skip3 rest3 hc hexe hdir htest]; exact hr⟩
  | case8 line cmd hc exe hexe l2 dir hdir l3 rest3 tt htest hlast =>
    intro h
    exfalso
    have hT : ('T' : Char) ∈ l3 := mem_of_afterFirst htest (by decide)
    have hne : pySplitWs l3 ≠ [] := pySplitWs_ne_nil hT (by decide)
    obtain ⟨x, hx⟩ := getLast?_ne_none _ hne
    rw [hx] at hlast
    exact absurd hlast (by simp)
  | case9 line cmd hc exe hexe l2 dir hdir l3 rest3 tt htest test hlast ih =>
    intro h
    obtain ⟨recs, hr⟩ :=
      ih (safeLinesB_cons (safeLinesB_cons (safeLinesB_cons h).2).2).2
    refine ⟨(cmd ++ ',' :: exe ++ ',' :: dir ++ ',' :: test) :: recs, ?_⟩
    rw [scanCtests_emit rest3 hc hexe hdir htest hlast, hr]
    rfl

/-- Prepending an unconsumed line preserves the witnessing structure. -/
theorem witnessedFrom_cons {ls : List (List Char)} {rs : List (List Char)}
    (x : List Char) (h : witnessedFrom ls rs) : witnessedFrom (x :: ls) rs := by
  cases rs with
  | nil => trivial
  | cons r rs2 =>
    obtain ⟨pre, l1, l2, l3, post, heq, hg, hw⟩ := h
    exact ⟨x :: pre, l1, l2, l3, post, by rw [heq]; rfl, hg, hw⟩

/-- Every record a successful scan returns is witnessed, in order, by a
group of three consecutive recognized lines. -/
theorem scanCtests_witnessed : ∀ (ls recs : List (List Char)),
    scanCtests ls = .ok recs → witnessedFrom ls recs := by
  intro ls
  induction ls using scanCtests.induct with
  | case1 =>
    intro recs h
    have h2 : Except.ok (ε := PyErr) [] = .ok recs := h
    injection h2 with h3
    rw [← h3]
    trivial
  | case2 line rest hc ih =>
    intro recs h
    rw [scanCtests_skip rest hc] at h
    exact witnessedFrom_cons line (ih recs h)
  | case3 line rest cmd hc hexe =>
    intro recs h
    rw [scanCtests_err_exe rest hc hexe] at h
    exact Except.noConfusion h
  | case4 line cmd hc exe hexe =>
    intro recs h
    rw [scanCtests_err_end1 hc hexe] at h
    exact Except.noConfusion h
  | case5 line cmd hc exe hexe l2 rest2 hdir ih =>
    intro recs h
    rw [scanCtests_skip2 rest2 hc hexe hdir] at h
    exact witnessedFrom_cons line (witnessedFrom_cons l2 (ih recs h))
  | case6 line cmd hc exe hexe l2 dir hdir =>
    intro recs h
    rw [scanCtests_err_end2 hc hexe hdir] at h
    exact Except.noConfusion h
  | case7 line cmd hc exe hexe l2 dir hdir l3 rest3 htest ih =>
    intro recs h
    rw [scanCtests_skip3 rest3 hc hexe hdir htest] at h
    exact witnessedFrom_cons line (witnessedFrom_cons l2 (witnessedFrom_cons l3 (ih recs h)))
  | case8 line cmd hc exe hexe l2 dir hdir l3 rest3 tt htest hlast =>
    intro recs h
    rw [scanCtests_err_test rest3 hc hexe hdir htest hlast] at h
    exact Except.noConfusion h
  | case9 line cmd hc exe hexe l2 dir hdir l3 rest3 tt htest test hlast ih =>
    intro recs h
    rw [scanCtests_emit rest3 hc hexe hdir htest hlast] at h
    cases hrest : scanCtests rest3 with
    | error e =>
      rw [hrest] at h
      exact Except.noConfusion h
    | ok recs0 =>
      rw [hrest] at h
      have h2 : Except.ok (ε := PyErr)
          ((cmd ++ ',' :: exe ++ ',' :: dir ++ ',' :: test) :: recs0) = .ok recs := h
      injection h2 with h3
      rw [← h3]
      refine ⟨[], line, l2, l3, rest3, rfl, ?_, ih recs0 hrest⟩
      exact ⟨cmd, exe, dir, test, hc, hexe, hdir, by rw [htest]; rfl, hlast, rfl⟩

/-! ### Re-splitting the joined output -/

/-- Words produced by `pySplitWs` are non-empty and whitespace-free. -/
theorem pySplitWs_words {l w : List Char} (hw : w ∈ pySplitWs l) :
    w ≠ [] ∧ ∀ c ∈ w, pyIsSpace c = false :=
  pySplitWsAux_mem l [] w (by simp) hw

/-- The join of non-empty whitespace-free pieces re-splits into itself
(or into nothing when there were no pieces). -/
theorem pySplitWs_joinSemi (ws : List (List Char)) (hne : ∀ w ∈ ws, w ≠ [])
    (hsp : ∀ w ∈ ws, ∀ c ∈ w, pyIsSpace c = false) :
    pySplitWs (joinSemi ws) = if ws.isEmpty then [] else [joinSemi ws] := by
  cases ws with
  | nil => rfl
  | cons w ws2 =>
    have h0 : joinSemi (w :: ws2) ≠ [] := joinSemi_ne_nil _ (by simp) hne
    have hchars : ∀ c ∈ joinSemi (w :: ws2), pyIsSpace c = false := by
      intro c hc
      rcases mem_joinSemi _ c hc with rfl | ⟨w2, hw2, hcw⟩
      · decide
      · exact hsp w2 hw2 c hcw
    rw [pySplitWs_nonspace _ h0 hchars]
    rw [if_neg (by simp)]

/-- Splitting the joined pieces again, mapping a function that fixes every
joined character over the words, and re-joining gives the joined pieces
back. -/
theorem joinSemi_resplit (ws : List (List Char))
    (hne : ∀ w ∈ ws, w ≠ []) (hsp : ∀ w ∈ ws, ∀ c ∈ w, pyIsSpace c = false)
    (f : Char → Char) (hfix : ∀ c ∈ joinSemi ws, f c = c) :
    joinSemi ((pySplitWs (joinSemi ws)).map (fun w => w.map f)) = joinSemi ws := by
  rw [pySplitWs_joinSemi ws hne hsp]
  cases ws with
  | nil => rfl
  | cons w ws2 =>
    rw [if_neg (by simp)]
    show (joinSemi (w :: ws2)).map f = joinSemi (w :: ws2)
    exact map_fixed _ hfix

/-- Splitting the joined pieces again, reversing, and re-joining gives the
joined pieces back. -/
theorem joinSemi_resplit_rev (ws : List (List Char))
    (hne : ∀ w ∈ ws, w ≠ []) (hsp : ∀ w ∈ ws, ∀ c ∈ w, pyIsSpace c = false) :
    joinSemi (pySplitWs (joinSemi ws)).reverse = joinSemi ws := by
  rw [pySplitWs_joinSemi ws hne hsp]
  cases ws with
  | nil => rfl
  | cons w ws2 =>
    rw [if_neg (by simp)]
    rfl

/-- Joining one-character pieces with `";"` is interspersing `';'`. -/
theorem joinSemi_map_singleton : ∀ (l : List Char),
    joinSemi (l.map (fun c => [c])) = List.intersperse ';' l := by
  intro l
  induction l with
  | nil => rfl
  | cons c t ih =>
    cases t with
    | nil => rfl
    | cons d t2 =>
      show [c] ++ ';' :: joinSemi ((d :: t2).map (fun c => [c])) =
        c :: ';' :: List.intersperse ';' (d :: t2)
      rw [ih]
      rfl

/-! ### Claim theorems -/

/-- C1, counterexample: on the input `": Test command: "` — a line
carrying the command marker with nothing after it — `get_ctests` does not
return normally: `Cmd.split()[-1]` raises `IndexError`. -/
theorem c1_counterexample_raises :
    get_ctests ": Test command: " = .error .indexError := by rfl

/-- C1, amended: `get_ctests` returns normally on every input whose lines
satisfy `safeLinesB` — every line containing the command marker has at
least one whitespace-separated token after the marker and at least two
lines after it; without that condition it can raise `IndexError`. -/
theorem c1_amended_no_raise_of_safe (s : String)
    (h : safeLinesB (splitNewline s.data) = true) :
    ∃ out, get_ctests s = .ok out := by
  obtain ⟨recs, hr⟩ := scanCtests_ok_of_safe _ h
  refine ⟨String.mk (joinSemi recs), ?_⟩
  rw [get_ctests, hr]
  rfl

/-- C1, witness for the amended theorem at a concrete well-formed input. -/
theorem c1_amended_no_raise_of_safe_witness :
    safeLinesB (splitNewline
      (": Test command: x_NEWLINE_: Working Directory: /tmp_NEWLINE_Test #1: t").data) = true ∧
    ∃ out, get_ctests
      ": Test command: x_NEWLINE_: Working Directory: /tmp_NEWLINE_Test #1: t" = .ok out :=
  ⟨by decide, c1_amended_no_raise_of_safe _ (by decide)⟩

/-- C2, counterexample: on the spec's well-formed example input,
`get_ctests` does not return the output the claim states (the claimed
output has no space before `/tmp`). -/
theorem c2_counterexample :
    get_ctests ": Test command: /usr/bin/foo --x_NEWLINE_: Working Directory: /tmp_NEWLINE_Test #1: mytest_NEWLINE_" ≠
      .ok "/usr/bin/foo --x,--x,/tmp,mytest" := by decide

/-- C2, amended: on the spec's well-formed example input, `get_ctests`
returns `"/usr/bin/foo --x,--x, /tmp,mytest"` — the working-directory
field keeps the space that separates the marker from the path. -/
theorem c2_amended_actual_output :
    get_ctests ": Test command: /usr/bin/foo --x_NEWLINE_: Working Directory: /tmp_NEWLINE_Test #1: mytest_NEWLINE_" =
      .ok "/usr/bin/foo --x,--x, /tmp,mytest" := by rfl

/-- C3, counterexample: `"main"` is not among the four exposed functions,
yet dispatching to it does not fail with the UnknownFunction error (the
`ValueError` of the source): the lookup finds the callable `main` and the
call then raises `TypeError`. -/
theorem c3_counterexample_main_name :
    ("main" ∉ ["get_ctests", "reverse_words", "to_upper", "remove_vowels"]) ∧
    main ["frontier_utils.py", "main", "x"] =
      .error (.typeError "main() takes 0 positional arguments but 1 was given") ∧
    isUnknownFunctionErr (main ["frontier_utils.py", "main", "x"]) = false := by
  refine ⟨by decide, by rfl, by rfl⟩

/-- C3, amended: with at least three arguments, whenever the requested
name misses the module globals entirely or names a non-callable binding,
`main` fails with the `ValueError` that models UnknownFunction (so nothing
is printed); a name bound to a callable global outside the four exposed
functions — `"main"` — instead passes the check and fails later. -/
theorem c3_amended_unknown_function (argv : List String)
    (h3 : ¬ argv.length < 3)
    (h : lookupNotCallable (argv.getD 1 "") = true) :
    isUnknownFunctionErr (main argv) = true := by
  rw [main, if_neg h3]
  rw [lookupNotCallable] at h
  cases hl : moduleGlobals.lookup (argv.getD 1 "") with
  | none => rfl
  | some g =>
    rw [hl] at h
    cases g with
    | strFun f => exact Bool.noConfusion h
    | mainFunc => exact Bool.noConfusion h
    | notCallable => rfl

/-- C3, witness for the amended theorem at the spec's own example name. -/
theorem c3_amended_unknown_function_witness :
    ¬ ((["frontier_utils.py", "frobnicate", "hello"] : List String).length < 3) ∧
    lookupNotCallable ((["frontier_utils.py", "frobnicate", "hello"] : List String).getD 1 "") = true ∧
    isUnknownFunctionErr (main ["frontier_utils.py", "frobnicate", "hello"]) = true :=
  ⟨by decide, by decide, c3_amended_unknown_function _ (by decide) (by decide)⟩

/-- C4, counterexample: in the input whose first group has a malformed
second line, the would-be test-name line `": Test command: c d"` IS
re-examined as a new command line: the parser emits the record built from
it rather than the empty output the claim implies. -/
theorem c4_counterexample :
    get_ctests ": Test command: a b_NEWLINE_garbage_NEWLINE_: Test command: c d_NEWLINE_: Working Directory: /x_NEWLINE_Test #1: t" =
      .ok "c d,d, /x,t" ∧
    ("c d,d, /x,t" : String) ≠ "" := ⟨by rfl, by decide⟩

/-- C4, amended: when a command line is followed by a line lacking the
directory marker, no record is emitted for that group and exactly those
two lines are consumed: the scan resumes AT the would-be test-name line,
which is re-examined as a potential new command line; there is no rollback
to before the command line. -/
theorem c4_amended_resume_at_would_be_test_line {line l2 : List Char}
    (rest : List (List Char)) {cmd exe : List Char}
    (h1 : afterFirst line cmdMarker = some cmd)
    (h2 : (pySplitWs cmd).getLast? = some exe)
    (h3 : afterFirst l2 dirMarker = none) :
    scanCtests (line :: l2 :: rest) = scanCtests rest :=
  scanCtests_skip2 rest h1 h2 h3

/-- C4, witness for the amended theorem at a concrete malformed group. -/
theorem c4_amended_resume_witness :
    scanCtests [": Test command: a".data, "zzz".data, ": Test command: c".data] =
      scanCtests [": Test command: c".data] :=
  @c4_amended_resume_at_would_be_test_line ": Test command: a".data "zzz".data
    [": Test command: c".data] "a".data "a".data rfl rfl rfl

/-- C5, counterexample: the single-line input `": Test command: x"`
deviates from the three-line grouping (input ends after the command line),
yet the scan does not skip forward and return normally — it raises
`IndexError`. -/
theorem c5_counterexample_raise_not_skip :
    get_ctests ": Test command: x" = .error .indexError := by rfl

/-- C5, amended: whenever `get_ctests` returns normally, every returned
record comes from three consecutive lines recognized as command, directory
and test-name in that exact order, and the records appear in the output in
the order of their line groups; unrecognized lines are skipped without a
record, but a group truncated by the end of input or a command line with
an empty command text aborts the parse with `IndexError` instead. -/
theorem c5_amended_records_witnessed (s : String) (out : String)
    (h : get_ctests s = .ok out) :
    ∃ recs, witnessedFrom (splitNewline s.data) recs ∧
      out = String.mk (joinSemi recs) := by
  rw [get_ctests] at h
  cases hscan : scanCtests (splitNewline s.data) with
  | error e =>
    rw [hscan] at h
    exact Except.noConfusion h
  | ok recs =>
    rw [hscan] at h
    have h2 : (Except.ok (String.mk (joinSemi recs)) : Except PyErr String) = .ok out := h
    injection h2 with h3
    exact ⟨recs, scanCtests_witnessed _ recs hscan, h3.symm⟩

/-- C5, witness for the amended theorem at a concrete input. -/
theorem c5_amended_records_witnessed_witness :
    ∃ recs, witnessedFrom (splitNewline
      (": Test command: x_NEWLINE_: Working Directory: /d_NEWLINE_Test #1: t").data) recs ∧
      ("x,x, /d,t" : String) = String.mk (joinSemi recs) :=
  c5_amended_records_witnessed _ _ (by rfl)

/-- C6: `to_upper` is idempotent — its output has no whitespace (only
uppercased word characters and `';'`), so a second application sees one
word of characters that uppercasing fixes. -/
theorem c6_to_upper_idem (s : String) : to_upper (to_upper s) = to_upper s := by
  have hne : ∀ w ∈ (pySplitWs s.data).map (fun w => w.map pyUpperChar), w ≠ [] := by
    intro w hw
    obtain ⟨w0, hw0, rfl⟩ := List.mem_map.mp hw
    intro hmap
    exact (pySplitWs_words hw0).1 (List.map_eq_nil_iff.mp hmap)
  have hsp : ∀ w ∈ (pySplitWs s.data).map (fun w => w.map pyUpperChar),
      ∀ c ∈ w, pyIsSpace c = false := by
    intro w hw c hc
    obtain ⟨w0, hw0, rfl⟩ := List.mem_map.mp hw
    obtain ⟨d, hd, rfl⟩ := List.mem_map.mp hc
    rw [pyIsSpace_pyUpperChar]
    exact (pySplitWs_words hw0).2 d hd
  have hfix : ∀ c ∈ joinSemi ((pySplitWs s.data).map (fun w => w.map pyUpperChar)),
      pyUpperChar c = c := by
    intro c hc
    rcases mem_joinSemi _ c hc with rfl | ⟨w, hw, hcw⟩
    · decide
    · obtain ⟨w0, hw0, rfl⟩ := List.mem_map.mp hw
      obtain ⟨d, hd, rfl⟩ := List.mem_map.mp hcw
      exact pyUpperChar_idem d
  exact congrArg String.mk (joinSemi_resplit _ hne hsp pyUpperChar hfix)

/-- C7: `remove_vowels` removes exactly the ten characters of
`"aeiouAEIOU"`, keeps every other character (whitespace and punctuation
included) in original order, joins the survivors with `";"`; in
particular `remove_vowels "Hello" = "H;l;l"`. -/
theorem c7_remove_vowels_filter_join :
    (∀ s : String, (remove_vowels s).data =
      List.intersperse ';' (s.data.filter (fun c => !(vowels.contains c)))) ∧
    remove_vowels "Hello" = "H;l;l" := by
  constructor
  · intro s
    exact joinSemi_map_singleton _
  · rfl

/-- C8: with fewer than three arguments, `main` returns the empty string,
prints nothing, looks nothing up and raises nothing. -/
theorem c8_main_short_argv (argv : List String) (h : argv.length < 3) :
    main argv = .ok ⟨[], some ""⟩ := by
  rw [main, if_pos h]

/-- C8, witness: program name and function name only. -/
theorem c8_main_short_argv_witness :
    (["frontier_utils.py", "to_upper"] : List String).length < 3 ∧
    main ["frontier_utils.py", "to_upper"] = .ok ⟨[], some ""⟩ :=
  ⟨by decide, c8_main_short_argv _ (by decide)⟩

/-- C9: the working-directory field is everything after the marker
`": Working Directory:"` including the separating space, so for a line
`": Working Directory: <path>"` the emitted field is `" <path>"`; at the
`get_ctests` level the record for `/tmp` reads `"x,x, /tmp,t"`. -/
theorem c9_dir_keeps_leading_space :
    (∀ p : List Char,
      scanCtests [": Test command: x".data, dirMarker ++ (' ' :: p), "Test #1: t".data] =
        .ok ["x,x, ".data ++ (p ++ ",t".data)]) ∧
    get_ctests ": Test command: x_NEWLINE_: Working Directory: /tmp_NEWLINE_Test #1: t" =
      .ok "x,x, /tmp,t" := by
  constructor
  · intro p
    rw [@scanCtests_emit ": Test command: x".data (dirMarker ++ (' ' :: p))
      "Test #1: t".data [] "x".data "x".data (' ' :: p) " #1: t".data "t".data
      rfl rfl (afterFirst_append_self dirMarker (' ' :: p) (by decide)) rfl rfl]
    rfl
  · rfl

/-- C10: `reverse_words` is idempotent — its output contains no
whitespace, so a second application treats it as a single word; in
particular a double application does not restore the original word order
(`"a b"` ends up as `"b;a"`, not `"a;b"`). -/
theorem c10_reverse_words_idem :
    (∀ s : String, reverse_words (reverse_words s) = reverse_words s) ∧
    reverse_words (reverse_words "a b") = "b;a" ∧ ("b;a" : String) ≠ "a;b" := by
  refine ⟨?_, by rfl, by decide⟩
  intro s
  have hne : ∀ w ∈ (pySplitWs s.data).reverse, w ≠ [] := fun w hw =>
    (pySplitWs_words (List.mem_reverse.mp hw)).1
  have hsp : ∀ w ∈ (pySplitWs s.data).reverse, ∀ c ∈ w, pyIsSpace c = false :=
    fun w hw => (pySplitWs_words (List.mem_reverse.mp hw)).2
  exact congrArg String.mk (joinSemi_resplit_rev _ hne hsp)

end frontier_utils
